import Mathlib

/-!
Verification of the memwatchdog native core (`native/addon.cc` and
`native/include/snapshot.hpp`) against its design specification.

The C++ code is shallowly embedded: `double` arithmetic on the small exact
values exercised here is modelled by `ℚ` (every operation the regression
performs on the test inputs is exact in binary64), `size_t` by `ℕ`, the
sample deque by `List`, and the NaN-aware behaviour of JavaScript numbers
flowing through the N-API glue by an explicit `JSNum` type.
-/

namespace mw

/-- A sample point `Pt { Clock::time_point t; size_t bytes; }` from
`addon.cc`.  `t` is the timestamp converted to milliseconds since the
clock epoch (the `double` produced by `std::chrono::duration<double,
std::milli>`), `bytes` the `size_t` heap usage reading. -/
structure Pt where
  t : ℚ
  bytes : ℕ
deriving DecidableEq, Repr

/-- The four running sums `sx, sy, sxy, sx2` accumulated by the loop in
`Watchdog::slope`. -/
structure Sums where
  sx : ℚ
  sy : ℚ
  sxy : ℚ
  sx2 : ℚ
deriving DecidableEq, Repr

/-- One iteration of the accumulation loop in `Watchdog::slope`:
`sx += x; sy += y; sxy += x*y; sx2 += x*x` with `x = p.t` and
`y = (double)p.bytes`. -/
def accum (s : Sums) (p : Pt) : Sums :=
  ⟨s.sx + p.t, s.sy + (p.bytes : ℚ), s.sxy + p.t * (p.bytes : ℚ),
    s.sx2 + p.t * p.t⟩

/-- `Watchdog::slope(buf)` from `addon.cc`: returns `0` for fewer than 3
samples, accumulates the four sums, returns `0` when the denominator
`n*sx2 - sx*sx` is zero, and otherwise the least-squares slope
`(n*sxy - sx*sy) / denom`. -/
def slope (buf : List Pt) : ℚ :=
  if buf.length < 3 then 0
  else
    let n : ℚ := buf.length
    let s : Sums := buf.foldl accum ⟨0, 0, 0, 0⟩
    let denom : ℚ := n * s.sx2 - s.sx * s.sx
    if denom = 0 then 0 else (n * s.sxy - s.sx * s.sy) / denom

/-- Σx: sum of the timestamps of a window (spec §4.3 notation). -/
def Sx (buf : List Pt) : ℚ := (buf.map (fun p => p.t)).sum

/-- Σy: sum of the byte readings of a window (spec §4.3 notation). -/
def Sy (buf : List Pt) : ℚ := (buf.map (fun p => (p.bytes : ℚ))).sum

/-- Σxy: sum of timestamp·bytes products of a window (spec §4.3). -/
def Sxy (buf : List Pt) : ℚ := (buf.map (fun p => p.t * (p.bytes : ℚ))).sum

/-- Σx²: sum of squared timestamps of a window (spec §4.3). -/
def Sx2 (buf : List Pt) : ℚ := (buf.map (fun p => p.t * p.t)).sum

/-- The regression denominator `n·Σx² − (Σx)²` of spec §4.3. -/
def denomOf (buf : List Pt) : ℚ :=
  (buf.length : ℚ) * Sx2 buf - Sx buf * Sx buf

/-- The ordinary-least-squares slope formula
`(n·Σxy − Σx·Σy) / (n·Σx² − (Σx)²)` exactly as written in spec §4.3. -/
def olsSlope (buf : List Pt) : ℚ :=
  ((buf.length : ℚ) * Sxy buf - Sx buf * Sy buf) / denomOf buf

/-- The window update in `Watchdog::loop`:
`buf_.push_back(p); if (buf_.size() > opts_.window) buf_.pop_front();`. -/
def pushSample (window : ℕ) (buf : List Pt) (p : Pt) : List Pt :=
  let b := buf ++ [p]
  if window < b.length then b.tail else b

/-- Pushing a whole list of samples through the window update, oldest
first (repeated cycles of `Watchdog::loop`). -/
def pushAll (window : ℕ) (buf : List Pt) (samples : List Pt) : List Pt :=
  samples.foldl (pushSample window) buf

-- Helper lemmas about the accumulated sums --------------------------------

lemma foldl_accum_eq (buf : List Pt) : ∀ s : Sums,
    buf.foldl accum s =
      ⟨s.sx + Sx buf, s.sy + Sy buf, s.sxy + Sxy buf, s.sx2 + Sx2 buf⟩ := by
  induction buf with
  | nil => intro s; simp [Sx, Sy, Sxy, Sx2]
  | cons p rest ih =>
    intro s
    simp only [List.foldl_cons, ih, accum, Sx, Sy, Sxy, Sx2, List.map_cons,
      List.sum_cons, Sums.mk.injEq]
    refine ⟨by ring, by ring, by ring, by ring⟩

lemma foldl_accum_zero (buf : List Pt) :
    buf.foldl accum ⟨0, 0, 0, 0⟩ = ⟨Sx buf, Sy buf, Sxy buf, Sx2 buf⟩ := by
  rw [foldl_accum_eq]
  simp

lemma slope_eq_cases (buf : List Pt) :
    slope buf =
      if buf.length < 3 then 0
      else if denomOf buf = 0 then 0
      else ((buf.length : ℚ) * Sxy buf - Sx buf * Sy buf) / denomOf buf := by
  unfold slope
  rw [foldl_accum_zero]
  rfl

/-- Sum over all ordered pairs of the list of the squared difference,
`Σ_{a∈xs} Σ_{b∈xs} (a−b)²`.  Auxiliary quantity used to analyse the
regression denominator. -/
def pairSum (xs : List ℚ) : ℚ :=
  (xs.map (fun a => (xs.map (fun b => (a - b) ^ 2)).sum)).sum

lemma sum_map_add (f g : ℚ → ℚ) (l : List ℚ) :
    (l.map (fun a => f a + g a)).sum = (l.map f).sum + (l.map g).sum := by
  induction l with
  | nil => simp
  | cons x t ih => simp only [List.map_cons, List.sum_cons, ih]; ring

lemma sum_map_sq_sub_left (x : ℚ) (t : List ℚ) :
    (t.map (fun b => (x - b) ^ 2)).sum
      = (t.length : ℚ) * x ^ 2 - 2 * x * t.sum
          + (t.map (fun b => b ^ 2)).sum := by
  induction t with
  | nil => simp
  | cons y s ih =>
    simp only [List.map_cons, List.sum_cons, List.length_cons, ih]
    push_cast
    ring

lemma sum_map_sq_sub_right (x : ℚ) (t : List ℚ) :
    (t.map (fun a => (a - x) ^ 2)).sum
      = (t.length : ℚ) * x ^ 2 - 2 * x * t.sum
          + (t.map (fun b => b ^ 2)).sum := by
  induction t with
  | nil => simp
  | cons y s ih =>
    simp only [List.map_cons, List.sum_cons, List.length_cons, ih]
    push_cast
    ring

lemma pairSum_eq (xs : List ℚ) :
    pairSum xs
      = 2 * ((xs.length : ℚ) * (xs.map (fun b => b ^ 2)).sum - xs.sum ^ 2) := by
  induction xs with
  | nil => simp [pairSum]
  | cons x t ih =>
    simp only [pairSum, List.map_cons, List.sum_cons] at ih ⊢
    rw [sum_map_add (fun a => (a - x) ^ 2)
      (fun a => (t.map (fun b => (a - b) ^ 2)).sum) t,
      sum_map_sq_sub_left, sum_map_sq_sub_right, ih, List.length_cons]
    push_cast
    ring

lemma pairSum_nonneg_inner (a : ℚ) (xs : List ℚ) :
    0 ≤ (xs.map (fun b => (a - b) ^ 2)).sum :=
  List.sum_nonneg (by
    intro x hx
    obtain ⟨b, _, rfl⟩ := List.mem_map.mp hx
    exact sq_nonneg _)

lemma pairSum_pos {xs : List ℚ} {a b : ℚ}
    (ha : a ∈ xs) (hb : b ∈ xs) (hne : a ≠ b) : 0 < pairSum xs := by
  have hsq : (0 : ℚ) < (a - b) ^ 2 :=
    lt_of_le_of_ne (sq_nonneg _)
      (Ne.symm (pow_ne_zero 2 (sub_ne_zero.mpr hne)))
  have h1 : (a - b) ^ 2 ≤ (xs.map (fun c => (a - c) ^ 2)).sum := by
    refine List.single_le_sum ?_ _ (List.mem_map_of_mem _ hb)
    intro x hx
    obtain ⟨c, _, rfl⟩ := List.mem_map.mp hx
    exact sq_nonneg _
  have h2 : (xs.map (fun c => (a - c) ^ 2)).sum ≤ pairSum xs := by
    refine List.single_le_sum ?_ _
      (List.mem_map_of_mem (fun a => (xs.map (fun c => (a - c) ^ 2)).sum) ha)
    intro x hx
    obtain ⟨c, _, rfl⟩ := List.mem_map.mp hx
    exact pairSum_nonneg_inner c xs
  linarith

lemma pairSum_eq_zero {xs : List ℚ} (h : ∀ x ∈ xs, ∀ y ∈ xs, x = y) :
    pairSum xs = 0 := by
  refine List.sum_eq_zero ?_
  intro v hv
  obtain ⟨a, ha, rfl⟩ := List.mem_map.mp hv
  refine List.sum_eq_zero ?_
  intro w hw
  obtain ⟨b, hb, rfl⟩ := List.mem_map.mp hw
  rw [h a ha b hb]
  ring

lemma denomOf_eq_pairSum (buf : List Pt) :
    2 * denomOf buf = pairSum (buf.map (fun p => p.t)) := by
  rw [pairSum_eq]
  unfold denomOf Sx Sx2
  simp only [List.length_map, List.map_map]
  have hcomp : (fun b => b ^ 2) ∘ (fun p : Pt => p.t)
      = fun p : Pt => p.t * p.t := by
    funext p
    simp [pow_two]
  rw [hcomp]
  ring

lemma denomOf_pos {buf : List Pt} {p q : Pt}
    (hp : p ∈ buf) (hq : q ∈ buf) (hne : p.t ≠ q.t) : 0 < denomOf buf := by
  have hpos : 0 < pairSum (buf.map (fun p => p.t)) :=
    pairSum_pos (List.mem_map_of_mem _ hp) (List.mem_map_of_mem _ hq) hne
  have h2 := denomOf_eq_pairSum buf
  linarith

/-- The concrete three-sample window of spec §8: samples `(t=0ms,100)`,
`(t=1ms,200)`, `(t=2ms,300)`. -/
def exampleWindow : List Pt := [⟨0, 100⟩, ⟨1, 200⟩, ⟨2, 300⟩]

/-- C4: with at least 3 samples whose timestamps are not all identical,
`Watchdog::slope` computes exactly the ordinary-least-squares value
`(n·Σxy − Σx·Σy) / (n·Σx² − (Σx)²)`; on the spec's concrete window it
equals 100 bytes/ms. -/
theorem C4_slope_is_ols (buf : List Pt) (h3 : 3 ≤ buf.length)
    (hne : ∃ p ∈ buf, ∃ q ∈ buf, p.t ≠ q.t) :
    slope buf = olsSlope buf ∧ slope exampleWindow = 100 := by
  constructor
  · obtain ⟨p, hp, q, hq, hpq⟩ := hne
    have hd : 0 < denomOf buf := denomOf_pos hp hq hpq
    rw [slope_eq_cases, olsSlope]
    rw [if_neg (by omega), if_neg (ne_of_gt hd)]
  · norm_num [slope, exampleWindow, accum]

/-- Witness for C4 at the spec's concrete window. -/
theorem C4_slope_is_ols_witness :
    slope exampleWindow = olsSlope exampleWindow
      ∧ slope exampleWindow = 100 :=
  C4_slope_is_ols exampleWindow (by decide) (by decide)

/-- C8: the division in `Watchdog::slope` is guarded — whenever the
denominator `n·Σx² − (Σx)²` is zero the function returns 0 without
dividing, and identical timestamps do force the denominator to zero. -/
theorem C8_denominator_guard (buf : List Pt) :
    (denomOf buf = 0 → slope buf = 0)
      ∧ ((∀ p ∈ buf, ∀ q ∈ buf, p.t = q.t) → denomOf buf = 0) := by
  constructor
  · intro h0
    rw [slope_eq_cases]
    by_cases hl : buf.length < 3
    · rw [if_pos hl]
    · rw [if_neg hl, if_pos h0]
  · intro hall
    have hz : pairSum (buf.map (fun p => p.t)) = 0 := by
      refine pairSum_eq_zero ?_
      intro x hx y hy
      obtain ⟨p, hp, rfl⟩ := List.mem_map.mp hx
      obtain ⟨q, hq, rfl⟩ := List.mem_map.mp hy
      exact hall p hp q hq
    have h2 := denomOf_eq_pairSum buf
    linarith

/-- Witness for C8 at a window with three identical timestamps. -/
theorem C8_denominator_guard_witness :
    denomOf [⟨5, 1⟩, ⟨5, 2⟩, ⟨5, 3⟩] = 0
      ∧ slope [⟨5, 1⟩, ⟨5, 2⟩, ⟨5, 3⟩] = 0 := by
  refine ⟨(C8_denominator_guard _).2 (by decide), ?_⟩
  exact (C8_denominator_guard [⟨5, 1⟩, ⟨5, 2⟩, ⟨5, 3⟩]).1
    ((C8_denominator_guard _).2 (by decide))

/-- C7: `Watchdog::slope` returns exactly 0 for every window holding
fewer than 3 samples. -/
theorem C7_slope_zero_below_three (buf : List Pt) (h : buf.length < 3) :
    slope buf = 0 := by
  unfold slope
  rw [if_pos h]

/-- Witness for C7 at a concrete two-sample window. -/
theorem C7_slope_zero_below_three_witness :
    slope [⟨0, 100⟩, ⟨1, 200⟩] = 0 :=
  C7_slope_zero_below_three [⟨0, 100⟩, ⟨1, 200⟩] (by decide)

-- The trend window (C5) ---------------------------------------------------

lemma pushSample_no_evict {w : ℕ} {buf : List Pt} (p : Pt)
    (h : buf.length + 1 ≤ w) : pushSample w buf p = buf ++ [p] := by
  unfold pushSample
  rw [if_neg]
  simp only [List.length_append, List.length_cons, List.length_nil]
  omega

lemma pushAll_no_evict :
    ∀ (samples : List Pt) (buf : List Pt) (w : ℕ),
      buf.length + samples.length ≤ w → pushAll w buf samples = buf ++ samples
  | [], buf, w, _ => by simp [pushAll]
  | p :: rest, buf, w, h => by
    have hlen : buf.length + 1 ≤ w := by
      simp only [List.length_cons] at h
      omega
    have hstep : pushSample w buf p = buf ++ [p] := pushSample_no_evict p hlen
    show pushAll w (pushSample w buf p) rest = buf ++ p :: rest
    rw [hstep, pushAll_no_evict rest (buf ++ [p]) w (by
      simp only [List.length_append, List.length_cons, List.length_nil,
        List.length_cons] at h ⊢
      omega)]
    simp

/-- C5: the window never exceeds `window` samples, and pushing a
`(window+1)`-th sample through `Watchdog::loop`'s update drops exactly
the oldest sample: the final content is `samples.drop 1`, of size
`window`, still ending in the newest sample. -/
theorem C5_window_fifo (w : ℕ) (hw : 0 < w) :
    (∀ (buf : List Pt) (p : Pt),
        buf.length ≤ w → (pushSample w buf p).length ≤ w)
      ∧ (∀ samples : List Pt, samples.length = w + 1 →
          pushAll w [] samples = samples.drop 1
            ∧ (pushAll w [] samples).length = w
            ∧ (pushAll w [] samples).getLast? = samples.getLast?) := by
  constructor
  · intro buf p hlen
    unfold pushSample
    by_cases h : w < (buf ++ [p]).length
    · rw [if_pos h]
      simp only [List.length_tail, List.length_append, List.length_cons,
        List.length_nil]
      omega
    · rw [if_neg h]
      omega
  · intro samples hlen
    obtain hnil | ⟨ys, z, hcat⟩ := samples.eq_nil_or_concat
    · subst hnil
      simp only [List.length_nil] at hlen
      omega
    subst hcat
    simp only [List.concat_eq_append] at hlen ⊢
    have hys : ys.length = w := by
      simp only [List.length_append, List.length_cons, List.length_nil] at hlen
      omega
    have hfold : pushAll w [] (ys ++ [z]) = pushSample w ys z := by
      unfold pushAll
      rw [List.foldl_append]
      have : List.foldl (pushSample w) [] ys = ys := by
        have := pushAll_no_evict ys [] w (by simp [hys])
        simpa [pushAll] using this
      rw [this]
      rfl
    have hpush : pushSample w ys z = (ys ++ [z]).tail := by
      unfold pushSample
      rw [if_pos]
      simp only [List.length_append, List.length_cons, List.length_nil]
      omega
    have hdrop : pushAll w [] (ys ++ [z]) = (ys ++ [z]).drop 1 := by
      rw [hfold, hpush, List.drop_one]
    refine ⟨hdrop, ?_, ?_⟩
    · rw [hdrop]
      simp only [List.length_drop, List.length_append, List.length_cons,
        List.length_nil]
      omega
    · rw [hdrop]
      obtain ⟨a, t, rfl⟩ : ∃ a t, ys = a :: t := by
        cases ys with
        | nil => simp only [List.length_nil] at hys; omega
        | cons a t => exact ⟨a, t, rfl⟩
      simp only [List.cons_append, List.drop_succ_cons, List.drop_zero]
      rw [show a :: (t ++ [z]) = (a :: t) ++ [z] from rfl,
        List.getLast?_append_of_ne_nil _ (by simp),
        List.getLast?_append_of_ne_nil _ (by simp)]

/-- Witness for C5 with `window = 2` and three pushed samples. -/
theorem C5_window_fifo_witness :
    (pushSample 2 [⟨0, 1⟩, ⟨1, 2⟩] ⟨2, 3⟩).length ≤ 2
      ∧ pushAll 2 [] [⟨0, 1⟩, ⟨1, 2⟩, ⟨2, 3⟩] = [⟨1, 2⟩, ⟨2, 3⟩]
      ∧ (pushAll 2 [] [⟨0, 1⟩, ⟨1, 2⟩, ⟨2, 3⟩]).length = 2 := by
  have h := C5_window_fifo 2 (by decide)
  have h2 := h.2 [⟨0, 1⟩, ⟨1, 2⟩, ⟨2, 3⟩] (by decide)
  exact ⟨h.1 [⟨0, 1⟩, ⟨1, 2⟩] ⟨2, 3⟩ (by decide),
    h2.1.trans (by decide), h2.2.1⟩

-- JavaScript / C++ double values crossing the N-API boundary ---------------

/-- A JavaScript number as seen by the addon: either NaN (produced e.g.
by `ToNumber(undefined)`) or a finite value, modelled exactly by `ℚ`. -/
inductive JSNum where
  | nan : JSNum
  | num : ℚ → JSNum
deriving DecidableEq, Repr

/-- The C++ `>=` on doubles used in `Watchdog::loop`
(`sl >= opts_.threshold`): every comparison involving NaN is false. -/
def jsGe (a b : JSNum) : Bool :=
  match a, b with
  | JSNum.num x, JSNum.num y => decide (y ≤ x)
  | _, _ => false

-- One cycle of Watchdog::loop (C6, C9) -------------------------------------

/-- Observable outcome of one loop cycle: updated window, computed
slope, whether `DumpSnapshot` was attempted, and whether the alert was
handed to the thread-safe callback. -/
structure CycleOut where
  buf : List Pt
  sl : ℚ
  captureTried : Bool
  dispatched : Bool
deriving DecidableEq, Repr

/-- The body of one iteration of `Watchdog::loop` after the sleep: push
the sample (evicting if over capacity), compute the slope, and when
`sl >= threshold` attempt `DumpSnapshot`; the callback is invoked via
`tsfn.BlockingCall` only if the dump succeeded.  `captureOk` is the
outcome of the (external, I/O-dependent) snapshot dump. -/
def loopCycle (window : ℕ) (threshold : JSNum) (buf : List Pt) (p : Pt)
    (captureOk : Bool) : CycleOut :=
  let b := pushSample window buf p
  let sl := slope b
  if jsGe (JSNum.num sl) threshold then
    if captureOk then ⟨b, sl, true, true⟩ else ⟨b, sl, true, false⟩
  else ⟨b, sl, false, false⟩

/-- Several consecutive cycles of `Watchdog::loop`: each input pairs the
sample read in that cycle with the success of the snapshot dump.
Returns the final window and the list of dispatched alert slopes. -/
def runCycles (window : ℕ) (threshold : JSNum) :
    List Pt → List (Pt × Bool) → List Pt × List ℚ
  | buf, [] => (buf, [])
  | buf, (p, ok) :: rest =>
    let c := loopCycle window threshold buf p ok
    let r := runCycles window threshold c.buf rest
    (r.1, if c.dispatched then c.sl :: r.2 else r.2)

/-- C6: for a finite threshold, a cycle attempts snapshot capture
exactly when the computed slope is `≥ threshold`, dispatches (when
capture succeeds) exactly under the same condition, and a slope exactly
equal to the threshold does trigger capture (inclusive boundary). -/
theorem C6_trigger_iff_slope_ge (w : ℕ) (q : ℚ) (buf : List Pt) (p : Pt)
    (ok : Bool) :
    ((loopCycle w (JSNum.num q) buf p ok).captureTried
        = decide (q ≤ slope (pushSample w buf p)))
      ∧ (ok = true →
          (loopCycle w (JSNum.num q) buf p ok).dispatched
            = decide (q ≤ slope (pushSample w buf p)))
      ∧ (slope (pushSample w buf p) = q →
          (loopCycle w (JSNum.num q) buf p ok).captureTried = true) := by
  unfold loopCycle jsGe
  by_cases h : q ≤ slope (pushSample w buf p)
  · cases ok <;> simp [h]
  · have hne : slope (pushSample w buf p) ≠ q := by
      intro he
      exact h (le_of_eq he.symm)
    cases ok <;> simp [h, hne]

/-- Witness for C6 at the boundary: threshold 100 and the spec window,
whose slope is exactly 100 — capture and dispatch both fire. -/
theorem C6_trigger_iff_slope_ge_witness :
    (loopCycle 30 (JSNum.num 100) [⟨0, 100⟩, ⟨1, 200⟩] ⟨2, 300⟩
        true).captureTried = true
      ∧ (loopCycle 30 (JSNum.num 100) [⟨0, 100⟩, ⟨1, 200⟩] ⟨2, 300⟩
          true).dispatched = true := by
  have h := C6_trigger_iff_slope_ge 30 100 [⟨0, 100⟩, ⟨1, 200⟩] ⟨2, 300⟩ true
  have hs : slope (pushSample 30 [⟨0, 100⟩, ⟨1, 200⟩] ⟨2, 300⟩) = 100 := by
    norm_num [pushSample, slope, accum]
  refine ⟨h.2.2 hs, ?_⟩
  rw [h.2.1 rfl, hs]
  decide

/-- C9: a cycle whose snapshot capture fails dispatches no alert, and
the loop simply proceeds: running the remaining cycles from the updated
window is exactly what the watchdog does next — a capture failure never
terminates it. -/
theorem C9_capture_failure_suppresses_alert (w : ℕ) (th : JSNum)
    (buf : List Pt) (p : Pt) (rest : List (Pt × Bool)) :
    (loopCycle w th buf p false).dispatched = false
      ∧ runCycles w th buf ((p, false) :: rest)
          = runCycles w th (pushSample w buf p) rest := by
  have hd : (loopCycle w th buf p false).dispatched = false := by
    unfold loopCycle
    by_cases h : jsGe (JSNum.num (slope (pushSample w buf p))) th <;> simp [h]
  have hb : (loopCycle w th buf p false).buf = pushSample w buf p := by
    unfold loopCycle
    by_cases h : jsGe (JSNum.num (slope (pushSample w buf p))) th <;> simp [h]
  refine ⟨hd, ?_⟩
  show (let c := loopCycle w th buf p false
        let r := runCycles w th c.buf rest
        (r.1, if c.dispatched then c.sl :: r.2 else r.2))
      = runCycles w th (pushSample w buf p) rest
  simp only [hd, hb, if_neg Bool.false_ne_true]

-- The N-API glue of `Start` (C3) -------------------------------------------

/-- Truncation toward zero of a rational, the integer part used by
ECMAScript number-to-integer conversions. -/
def truncQ (q : ℚ) : ℤ := if 0 ≤ q then ⌊q⌋ else ⌈q⌉

/-- ECMAScript `ToUint32` as performed by `Napi::Number::Uint32Value()`:
NaN maps to 0, a finite value is truncated toward zero and reduced
modulo `2^32` (so `-1` becomes `4294967295`). -/
def toUint32 : JSNum → ℕ
  | JSNum.nan => 0
  | JSNum.num q => (truncQ q % (2 ^ 32 : ℤ)).toNat

/-- `opts.Get(key).ToNumber()`: a property absent from the options
object reads as `undefined`, whose `ToNumber` conversion is NaN;
otherwise the number itself. -/
def toNumber : Option JSNum → JSNum
  | none => JSNum.nan
  | some v => v

/-- C++ contextual conversion of a `double` to `bool`, as used by the
conditional operator in `Start` (`threshold ? threshold : 1024.0`): the
value compares unequal to zero — which is TRUE for NaN. -/
def cppTruthy (v : JSNum) : Bool :=
  match v with
  | JSNum.nan => true
  | JSNum.num q => decide (q ≠ 0)

/-- The recognized fields of the `options` object passed to `start`,
each either absent or (after `ToNumber`) a JavaScript number. -/
structure StartOpts where
  interval : Option JSNum
  window : Option JSNum
  threshold : Option JSNum
deriving DecidableEq, Repr

/-- The `Watchdog::Options` values a `Start` call produces. -/
structure WatchdogOptions where
  interval : ℕ
  window : ℕ
  threshold : JSNum
deriving DecidableEq, Repr

/-- The option processing in `Start` (`addon.cc` lines 129–139):
`Uint32Value()` on interval/window, `DoubleValue()` on threshold, then
the fallbacks `interval ? interval : 60'000`, `window ? window : 30`,
`threshold ? threshold : 1024.0`. -/
def startOptions (o : StartOpts) : WatchdogOptions :=
  let interval := toUint32 (toNumber o.interval)
  let window := toUint32 (toNumber o.window)
  let threshold := toNumber o.threshold
  ⟨if interval ≠ 0 then interval else 60000,
    if window ≠ 0 then window else 30,
    if cppTruthy threshold then threshold else JSNum.num 1024⟩

/-- C3 evaluated on the inputs where it fails, and on those where it
holds: an unset `threshold` survives as NaN (the C++ fallback keeps NaN
because NaN compares unequal to zero), a negative threshold is kept
rather than replaced by 1024.0, and a negative interval wraps modulo
`2^32` instead of falling back to 60000; only `interval`/`window` equal
to 0 or unset actually take their defaults. -/
theorem C3_defaults_partially_applied :
    (startOptions ⟨none, none, none⟩).threshold = JSNum.nan
      ∧ (startOptions ⟨none, none, some (JSNum.num (-1))⟩).threshold
          = JSNum.num (-1)
      ∧ (startOptions ⟨some (JSNum.num (-1)), none, none⟩).interval
          = 4294967295
      ∧ (startOptions ⟨some (JSNum.num 0), none, none⟩).interval = 60000
      ∧ (startOptions ⟨none, none, none⟩).interval = 60000
      ∧ (startOptions ⟨none, some (JSNum.num 0), none⟩).window = 30
      ∧ (startOptions ⟨none, none, none⟩).window = 30
      ∧ (startOptions ⟨none, none, some (JSNum.num 2048)⟩).threshold
          = JSNum.num 2048 := by
  refine ⟨rfl, ?_, ?_, rfl, rfl, rfl, rfl, ?_⟩
  · norm_num [startOptions, toNumber, cppTruthy]
  · norm_num [startOptions, toNumber, toUint32, truncQ, cppTruthy,
      Int.ceil_neg, Int.floor_one]
    rfl
  · norm_num [startOptions, toNumber, cppTruthy]

-- The `Stop` binding (C2) ---------------------------------------------------

/-- Liveness of the heap-allocated `Watchdog` whose pointer the
`External` handle returned by `start` carries. -/
inductive HandleState where
  | live : HandleState
  | freed : HandleState
deriving DecidableEq, Repr

/-- `Stop` from `addon.cc`: it unconditionally executes
`delete info[0].As<Napi::External<Watchdog>>().Data()`.  The external
keeps the same pointer forever, and `delete` on an object that was
already deleted is undefined behaviour in C++, modelled as `none`.
There is no liveness flag anywhere in the code. -/
def stopNative : HandleState → Option HandleState
  | HandleState.live => some HandleState.freed
  | HandleState.freed => none

/-- C2 evaluated at the failing input: the first `stop` frees the
watchdog, and a second `stop` on the same handle `delete`s the dangling
pointer — undefined behaviour, not a no-op. -/
theorem C2_second_stop_is_double_free :
    stopNative HandleState.live = some HandleState.freed
      ∧ (stopNative HandleState.live).bind stopNative = none := by
  exact ⟨rfl, rfl⟩

-- Snapshot dumping (C10) ----------------------------------------------------

/-- Result codes of `v8::OutputStream::WriteAsciiChunk`. -/
inductive WriteResult where
  | kContinue : WriteResult
  | kAbort : WriteResult
deriving DecidableEq, Repr

/-- The observable state of a `std::ofstream`: whether it opened, and
whether it is still `good()` (no failed write). -/
structure OFStream where
  isOpen : Bool
  good : Bool
deriving DecidableEq, Repr

/-- `FileStream::WriteAsciiChunk` from `addon.cc`: performs
`file_.write(data, size)` — `chunkOk` says whether that write keeps the
stream good — and returns `kContinue` unconditionally. -/
def writeAsciiChunk (f : OFStream) (chunkOk : Bool) : OFStream × WriteResult :=
  (⟨f.isOpen, f.good && chunkOk⟩, WriteResult.kContinue)

/-- `FileOutputStream::WriteAsciiChunk` from `snapshot.hpp`: performs
the write and returns `kContinue` only while the stream is `good()`,
`kAbort` otherwise. -/
def writeAsciiChunkHpp (f : OFStream) (chunkOk : Bool) :
    OFStream × WriteResult :=
  let f2 : OFStream := ⟨f.isOpen, f.good && chunkOk⟩
  (f2, if f2.good then WriteResult.kContinue else WriteResult.kAbort)

/-- Modelled from the spec: the V8 heap-snapshot `Serialize` driver is
library code outside this repository; per §4.4 the artifact writer is
opaque — the serializer feeds ASCII chunks to the output stream until
the stream asks to abort or the data ends, and reports nothing back. -/
def serializeWith (step : OFStream → Bool → OFStream × WriteResult) :
    OFStream → List Bool → OFStream
  | f, [] => f
  | f, c :: rest =>
    let r := step f c
    match r.2 with
    | WriteResult.kContinue => serializeWith step r.1 rest
    | WriteResult.kAbort => r.1

/-- `DumpSnapshot` from `addon.cc`: returns false iff the output file
failed to open; otherwise it serialises through `FileStream` and
returns true without ever consulting the stream state. -/
def DumpSnapshot (openOk : Bool) (chunks : List Bool) : Bool :=
  if !openOk then false
  else
    let _f := serializeWith writeAsciiChunk ⟨openOk, true⟩ chunks
    true

/-- `HeapSnapshotWriter::write` from `snapshot.hpp`: fails if no
isolate is current or the stream did not open, then serialises through
`FileOutputStream` and returns true regardless of write outcomes. -/
def heapSnapshotWrite (isolateOk openOk : Bool) (chunks : List Bool) :
    Bool :=
  if !isolateOk then false
  else if !openOk then false
  else
    let _f := serializeWith writeAsciiChunkHpp ⟨openOk, true⟩ chunks
    true

/-- C10: snapshot capture reports failure exactly when the output file
cannot be opened; once open, both capture helpers return true for every
pattern of write outcomes — including all writes failing. -/
theorem C10_capture_result_ignores_writes (openOk : Bool)
    (chunks : List Bool) (k : ℕ) :
    DumpSnapshot openOk chunks = openOk
      ∧ DumpSnapshot true (List.replicate k false) = true
      ∧ heapSnapshotWrite true openOk chunks = openOk := by
  cases openOk <;> simp [DumpSnapshot, heapSnapshotWrite]

-- The shutdown protocol (C1) ------------------------------------------------

/-- Cross-thread state of one watchdog instance around shutdown.
`running` is the atomic `running_` flag; `threadAlive` says the
background `std::thread` has not yet returned; `aborted` says
`tsfn.Abort()` has executed; `pending` counts callback invocations
enqueued by `BlockingCall` but not yet run on the main thread;
`stopStarted`/`joined`/`stopped` track the progress of
`Watchdog::~Watchdog`, which `Stop` runs on the main thread. -/
structure WdState where
  running : Bool
  threadAlive : Bool
  aborted : Bool
  stopStarted : Bool
  joined : Bool
  stopped : Bool
  pending : ℕ
deriving DecidableEq, Repr

/-- State right after `Start` returns: loop thread spawned, flag set. -/
def initState : WdState := ⟨true, true, false, false, false, false, 0⟩

/-- Interleaving events around shutdown.  `enqueue` is the loop
thread's `tsfn.BlockingCall` at the end of a triggering cycle;
`loopExit` is the loop observing `running_ == false` at the top of an
iteration and returning; `fire` is the main-thread event loop invoking
one queued callback; `stopBegin`, `stopJoin`, `stopAbort` are the three
steps of the destructor: `running_.store(false)`, `thread_.join()`,
`tsfn.Abort()` — after which `stop` returns. -/
inductive Ev where
  | enqueue : Ev
  | loopExit : Ev
  | fire : Ev
  | stopBegin : Ev
  | stopJoin : Ev
  | stopAbort : Ev
deriving DecidableEq, Repr

/-- One interleaving step; `none` means the event is not enabled.
Modelled from the spec where the behaviour belongs to the external
thread-safe-function channel of §4.5, which is Node library code not in
this repository: a queued call fires only in the observer's (main
thread) context — hence never while the main thread is inside `stop` —
and `abort` drops queued calls and makes any later dispatch a no-op
(§4.5 (b), §9).  The rest follows `addon.cc`: a live loop thread may
still enqueue (an in-flight cycle), the loop exits only after observing
`running = false`, and the destructor stores the flag, joins the
thread, and only then aborts the channel. -/
def step (st : WdState) : Ev → Option WdState
  | Ev.enqueue =>
    if st.threadAlive && !st.aborted then
      some { st with pending := st.pending + 1 }
    else none
  | Ev.loopExit =>
    if st.threadAlive && !st.running then
      some { st with threadAlive := false }
    else none
  | Ev.fire =>
    if (st.pending != 0) && !st.aborted && !(st.stopStarted && !st.stopped)
    then some { st with pending := st.pending - 1 }
    else none
  | Ev.stopBegin =>
    if !st.stopStarted then
      some { st with stopStarted := true, running := false }
    else none
  | Ev.stopJoin =>
    if st.stopStarted && !st.joined && !st.threadAlive then
      some { st with joined := true }
    else none
  | Ev.stopAbort =>
    if st.joined && !st.stopped then
      some { st with aborted := true, pending := 0, stopped := true }
    else none

/-- Executing a whole interleaving from a state; `none` as soon as an
event is not enabled. -/
def exec : WdState → List Ev → Option WdState
  | st, [] => some st
  | st, e :: tr =>
    match step st e with
    | none => none
    | some st2 => exec st2 tr

lemma exec_append (t1 t2 : List Ev) (st : WdState) :
    exec st (t1 ++ t2) = (exec st t1).bind (fun s => exec s t2) := by
  induction t1 generalizing st with
  | nil => simp [exec]
  | cons e tr ih =>
    show (match step st e with
          | none => none
          | some st2 => exec st2 (tr ++ t2))
        = (match step st e with
          | none => none
          | some st2 => exec st2 tr).bind (fun s => exec s t2)
    cases step st e with
    | none => rfl
    | some st2 => exact ih st2

lemma step_preserves_aborted {st st2 : WdState} {e : Ev}
    (h : step st e = some st2) (ha : st.aborted = true) :
    st2.aborted = true := by
  cases e <;> simp only [step] at h <;> split at h <;> cases h <;> simp_all

lemma fire_disabled_of_aborted {st : WdState} (ha : st.aborted = true) :
    step st Ev.fire = none := by
  simp [step, ha]

lemma no_fire_of_aborted :
    ∀ (tr : List Ev) (st st2 : WdState), st.aborted = true →
      exec st tr = some st2 → Ev.fire ∉ tr := by
  intro tr
  induction tr with
  | nil => intro st st2 _ _ h; exact absurd h (List.not_mem_nil _)
  | cons e rest ih =>
    intro st st2 ha hexec
    have hstep : ∃ st1, step st e = some st1 ∧ exec st1 rest = some st2 := by
      revert hexec
      show (match step st e with
            | none => none
            | some s => exec s rest) = some st2 → _
      cases step st e with
      | none => intro h; exact absurd h (by simp)
      | some s => intro h; exact ⟨s, rfl, h⟩
    obtain ⟨st1, hs, he⟩ := hstep
    intro hmem
    rcases List.mem_cons.mp hmem with rfl | hmem2
    · rw [fire_disabled_of_aborted ha] at hs
      exact absurd hs (by simp)
    · exact ih st1 st2 (step_preserves_aborted hs ha) he hmem2

/-- C1: in every interleaving in which `stop` completes its final step
(`tsfn.Abort()`, after the join), no callback fires afterwards — even
if a triggering cycle had already enqueued an alert when `stop` was
invoked, the queued call is dropped and never runs. -/
theorem C1_no_alert_after_stop (t1 t2 : List Ev) (st2 : WdState)
    (h : exec initState (t1 ++ Ev.stopAbort :: t2) = some st2) :
    Ev.fire ∉ t2 := by
  rw [exec_append] at h
  obtain ⟨stA, hA, hrest⟩ : ∃ stA, exec initState t1 = some stA
      ∧ exec stA (Ev.stopAbort :: t2) = some st2 := by
    revert h
    cases exec initState t1 with
    | none => intro h; exact absurd h (by simp)
    | some s => intro h; exact ⟨s, rfl, h⟩
  have hstep : ∃ stB, step stA Ev.stopAbort = some stB
      ∧ exec stB t2 = some st2 := by
    revert hrest
    show (match step stA Ev.stopAbort with
          | none => none
          | some s => exec s t2) = some st2 → _
    cases step stA Ev.stopAbort with
    | none => intro h2; exact absurd h2 (by simp)
    | some s => intro h2; exact ⟨s, rfl, h2⟩
  obtain ⟨stB, hB, hBrest⟩ := hstep
  have hab : stB.aborted = true := by
    simp only [step] at hB
    split at hB
    · cases hB; rfl
    · exact absurd hB (by simp)
  exact no_fire_of_aborted t2 stB st2 hab hBrest

/-- Witness for C1: a capture/dispatch is in flight (one callback
queued) when `stop` begins; the loop exits, `stop` joins and aborts —
and the interleaving is valid with nothing firing afterwards. -/
theorem C1_no_alert_after_stop_witness :
    exec initState ([Ev.enqueue, Ev.stopBegin, Ev.loopExit, Ev.stopJoin]
        ++ Ev.stopAbort :: [])
      = some ⟨false, false, true, true, true, true, 0⟩
      ∧ Ev.fire ∉ ([] : List Ev) := by
  have hexec : exec initState ([Ev.enqueue, Ev.stopBegin, Ev.loopExit,
      Ev.stopJoin] ++ Ev.stopAbort :: [])
      = some ⟨false, false, true, true, true, true, 0⟩ := by decide
  exact ⟨hexec,
    C1_no_alert_after_stop [Ev.enqueue, Ev.stopBegin, Ev.loopExit,
      Ev.stopJoin] [] ⟨false, false, true, true, true, true, 0⟩ hexec⟩

end mw
